import Mathlib

/-!
# Verification of `scraper_app/views.py`

A shallow embedding of the core of the scraper application: the address
parser (`parse_address`), the CAPTCHA relay polling loop
(`_wait_for_captcha_value`) together with the intake side of `get_status`,
the record persistence helper (`save_to_db`), the element screenshot crop
(`_screenshot_element`), and the control-flow skeleton of the orchestration
view (`trigger_scrape`): its exit paths with explicit `driver.quit()` calls,
its per-row result loop and its pagination loop.

Regular-expression matching (Python `re.search` with `re.IGNORECASE`) is
embedded pattern-by-pattern: each of the seven fixed patterns of
`parse_address` is hand-compiled into a matcher on `List Char` with the
same leftmost-search and greedy-with-backtracking semantics, using ASCII
case folding (`Char.toLower`).
-/

namespace Scraper

/-- Python `\s` as used by `re` on ASCII text: space, tab, newline,
carriage return, vertical tab, form feed. -/
def isSpace (c : Char) : Bool :=
  c = ' ' || c = '\t' || c = '\n' || c = '\r' || c = '\x0b' || c = '\x0c'

/-- Membership in the character class `[^,\.]` (anything but comma and period). -/
def notDelim (c : Char) : Bool := !(c = ',' || c = '.')

/-- Case-insensitive literal match at the start of the input
(the pattern is given in lower case); returns the remaining input. -/
def matchLitCI : List Char → List Char → Option (List Char)
  | [], s => some s
  | _ :: _, [] => none
  | p :: ps, c :: cs => if c.toLower = p then matchLitCI ps cs else none

/-- The tail regex `\s*([^,\.]+)` with Python's greedy backtracking:
the whitespace run is consumed greedily; if the character after it is a
delimiter (or the input ends) the engine gives one whitespace character
back to the capture group.  Returns the captured group. -/
def tailMatch (s : List Char) : Option (List Char) :=
  let ws := s.takeWhile isSpace
  let rest := s.dropWhile isSpace
  match rest with
  | c :: _ =>
    if notDelim c then some (rest.takeWhile notDelim)
    else
      match ws.getLast? with
      | some w => some [w]
      | none => none
  | [] =>
    match ws.getLast? with
    | some w => some [w]
    | none => none

/-- The regex fragment `:?\s*([^,\.]+)`: the optional colon is tried
greedily first, falling back to not consuming it. -/
def colonTail (r : List Char) : Option (List Char) :=
  match r with
  | ':' :: r2 =>
    match tailMatch r2 with
    | some cap => some cap
    | none => tailMatch r
  | _ => tailMatch r

/-- The regex fragment `\s*:?\s*([^,\.]+)` (used by the `Sub-Area` pattern):
leading whitespace is consumed greedily; on failure of the rest, one
whitespace character is given back to the capture group. -/
def wsColonTail (r : List Char) : Option (List Char) :=
  let ws := r.takeWhile isSpace
  let r2 := r.dropWhile isSpace
  match colonTail r2 with
  | some cap => some cap
  | none =>
    match ws.getLast? with
    | some w => some [w]
    | none => none

/-- Pattern `Ward Colony\s*-\s*([^,\.]+)` at a fixed start position. -/
def matchWard (s : List Char) : Option (List Char) :=
  match matchLitCI ['w', 'a', 'r', 'd', ' ', 'c', 'o', 'l', 'o', 'n', 'y'] s with
  | none => none
  | some r =>
    match r.dropWhile isSpace with
    | '-' :: r2 => tailMatch r2
    | _ => none

/-- Pattern `Distirct:?\s*([^,\.]+)` at a fixed start position.  The source
pattern spells the literal `Distirct` (sic), not `District`. -/
def matchDistirct (s : List Char) : Option (List Char) :=
  match matchLitCI ['d', 'i', 's', 't', 'i', 'r', 'c', 't'] s with
  | none => none
  | some r => colonTail r

/-- Pattern `Village:?\s*([^,\.]+)` at a fixed start position. -/
def matchVillage (s : List Char) : Option (List Char) :=
  match matchLitCI ['v', 'i', 'l', 'l', 'a', 'g', 'e'] s with
  | none => none
  | some r => colonTail r

/-- Pattern `Sub-Area\s*:?\s*([^,\.]+)` at a fixed start position. -/
def matchSubArea (s : List Char) : Option (List Char) :=
  match matchLitCI ['s', 'u', 'b', '-', 'a', 'r', 'e', 'a'] s with
  | none => none
  | some r => wsColonTail r

/-- Pattern `Tehsil:?\s*([^,\.]+)` at a fixed start position. -/
def matchTehsil (s : List Char) : Option (List Char) :=
  match matchLitCI ['t', 'e', 'h', 's', 'i', 'l'] s with
  | none => none
  | some r => colonTail r

/-- The fragment `(\d{6})`: exactly six decimal digits, captured. -/
def sixDigits (s : List Char) : Option (List Char) :=
  if (s.take 6).length = 6 && (s.take 6).all Char.isDigit then some (s.take 6) else none

/-- Pattern `pin-?(\d{6})` at a fixed start position: the optional dash is
consumed greedily with fallback. -/
def matchPin (s : List Char) : Option (List Char) :=
  match matchLitCI ['p', 'i', 'n'] s with
  | none => none
  | some r =>
    match r with
    | '-' :: r2 =>
      match sixDigits r2 with
      | some d => some d
      | none => sixDigits r
    | _ => sixDigits r

/-- Pattern `(\d+\s*m\s+from\s+[^p]+)` at a fixed start position; the
capture is the whole match.  Quantifier backtracking is vacuous here
(digits are not whitespace, whitespace is not `m`/`f`), so each run is
consumed maximally. -/
def matchLandmark (s : List Char) : Option (List Char) :=
  let ds := s.takeWhile Char.isDigit
  let r1 := s.dropWhile Char.isDigit
  if ds.isEmpty then none
  else
    let ws1 := r1.takeWhile isSpace
    let r2 := r1.dropWhile isSpace
    match r2 with
    | [] => none
    | m :: r3 =>
      if m.toLower = 'm' then
        let ws2 := r3.takeWhile isSpace
        let r4 := r3.dropWhile isSpace
        if ws2.isEmpty then none
        else
          match matchLitCI ['f', 'r', 'o', 'm'] r4 with
          | none => none
          | some r5 =>
            let ws3 := r5.takeWhile isSpace
            let r6 := r5.dropWhile isSpace
            if ws3.isEmpty then none
            else
              let cap := r6.takeWhile (fun c => !(c.toLower = 'p'))
              if cap.isEmpty then
                -- `[^p]+` fails right after the whitespace run; the final
                -- `\s+` backtracks one step and `[^p]+` consumes that
                -- whitespace character instead (needs at least two)
                if ws3.length < 2 then none
                else some (ds ++ ws1 ++ [m] ++ ws2 ++ r4.take 4 ++ ws3)
              else some (ds ++ ws1 ++ [m] ++ ws2 ++ r4.take 4 ++ ws3 ++ cap)
      else none

/-- `re.search`: try the matcher at every start position, leftmost first
(the capture of the leftmost successful position wins). -/
def searchM (m : List Char → Option (List Char)) : List Char → Option (List Char)
  | [] => m []
  | c :: cs =>
    match m (c :: cs) with
    | some r => some r
    | none => searchM m cs

/-- `match.group(1)` when the pattern matched, `""` otherwise
(every pattern of `parse_address` has exactly one group). -/
def optStr : Option (List Char) → String
  | none => ""
  | some l => String.mk l

/-- `pat` is a (case-sensitive) prefix of `hay`. -/
def headMatches : List Char → List Char → Bool
  | _, [] => true
  | [], _ :: _ => false
  | c :: cs, p :: ps => (c = p) && headMatches cs ps

/-- Python's `pat in hay` substring test (case-sensitive). -/
def containsSubstr (hay pat : List Char) : Bool :=
  match hay with
  | [] => headMatches [] pat
  | _ :: t => headMatches hay pat || containsSubstr t pat

/-- The test `"disabled" in classes` applied to the pagination next
button's class attribute (line 526). -/
def containsDisabled (classes : String) : Bool :=
  containsSubstr classes.toList (String.toList "disabled")

/-- `parse_address` from `views.py` (lines 80-101): applies the seven fixed
case-insensitive patterns in order, each contributing its captured group or
`""`, then the two literal substring tests for `State` and `Country`.
The Python dict (insertion-ordered, distinct literal keys) is embedded as an
association list. -/
def parse_address (addr : String) : List (String × String) :=
  let cs := addr.toList
  [ ("Ward/Colony", optStr (searchM matchWard cs)),
    ("District", optStr (searchM matchDistirct cs)),
    ("Village", optStr (searchM matchVillage cs)),
    ("Sub-Area/Road", optStr (searchM matchSubArea cs)),
    ("Tehsil/Locality", optStr (searchM matchTehsil cs)),
    ("PIN Code", optStr (searchM matchPin cs)),
    ("Landmark", optStr (searchM matchLandmark cs)),
    ("State", if containsSubstr cs (String.toList "Madhya Pradesh") then "Madhya Pradesh" else ""),
    ("Country", if containsSubstr cs (String.toList "India") then "India" else "") ]

/-- The PIN pattern of the specification: the address decomposes around a
six-digit run immediately preceded by `pin` or `pin-` (case-insensitive). -/
def PinOccurrence (cs d : List Char) : Prop :=
  ∃ pre p dash suf : List Char,
    cs = pre ++ p ++ dash ++ d ++ suf ∧
    p.map Char.toLower = ['p', 'i', 'n'] ∧
    (dash = [] ∨ dash = ['-']) ∧
    d.length = 6 ∧ d.all Char.isDigit = true

/-- The literal `Distirct` (as the source's pattern spells it) occurs
case-insensitively at position `i` of `cs`. -/
def DistirctAt (cs : List Char) (i : ℕ) : Prop :=
  ((cs.drop i).take 8).map Char.toLower = ['d', 'i', 's', 't', 'i', 'r', 'c', 't']

instance (cs : List Char) (i : ℕ) : Decidable (DistirctAt cs i) :=
  decidable_of_iff
    (((cs.drop i).take 8).map Char.toLower = ['d', 'i', 's', 't', 'i', 'r', 'c', 't'])
    Iff.rfl

/-! ## CAPTCHA relay: `_wait_for_captcha_value` and the intake side of `get_status` -/

/-- Python truthiness of the cached slot content: `None` and `""` are falsy. -/
def truthyStr : Option String → Bool
  | none => false
  | some s => !(s = "")

/-- `_wait_for_captcha_value` (lines 155-169): poll the per-run cache slot
once per interval until a truthy value appears or the timeout elapses; on
success delete the slot and return the value, on timeout leave the slot
untouched and return `None`.  `fuel` is the number of polls
(`timeout / poll_interval`, 180 by default); the slot is passed and
returned explicitly, and no concurrent writer runs during the poll.
Result: (returned value, slot state afterwards). -/
def _wait_for_captcha_value : Option String → Nat → Option String × Option String
  | slot, 0 => (none, slot)
  | slot, n + 1 =>
    if truthyStr slot then (slot, none) else _wait_for_captcha_value slot n

/-- The captcha intake inside `get_status` (lines 59-65): strip the POSTed
value (`None` becomes `""`); store it in the run's slot only when it is
non-empty and a latest run exists, otherwise leave the slot unchanged. -/
def get_status_store (raw : Option String) (runExists : Bool) (slot : Option String) :
    Option String :=
  let captcha_value := (raw.getD "").trim
  if captcha_value ≠ "" ∧ runExists = true then some captcha_value else slot

/-! ## Persistence: `save_to_db` -/

/-- Overwrite-on-duplicate insertion of one key/value pair, as Python dict
construction does (position of an existing key is kept, its value replaced). -/
def pyDictInsert (d : List (String × String)) (kv : String × String) :
    List (String × String) :=
  if d.any (fun p => p.1 == kv.1) then
    d.map (fun p => if p.1 == kv.1 then (p.1, kv.2) else p)
  else d ++ [kv]

/-- `dict(pairs)` for a list of pairs (Python semantics: later pairs with a
duplicate key overwrite the earlier value). -/
def pyDict (l : List (String × String)) : List (String × String) :=
  l.foldl pyDictInsert []

/-- `dict(zip(labels, values))` for one extracted section: `zip` truncates
to the shorter list. -/
def sectionDict (sec : List String × List String) : List (String × String) :=
  pyDict (sec.1.zip sec.2)

/-- The record persisted by `save_to_db`. -/
structure ScrapedRecord where
  registration_details : List (String × String)
  seller_details : List (String × String)
  buyer_details : List (String × String)
  property_details : List (String × String)
  khasra_details : List (String × String)

/-- `save_to_db` (lines 172-187): builds one `ScrapedRecord` from the five
`(labels, values)` sections via `dict(zip(...))` inside one transaction. -/
def save_to_db (all_sections : List (List String × List String)) : ScrapedRecord :=
  { registration_details := sectionDict (all_sections.getD 0 ([], []))
  , seller_details := sectionDict (all_sections.getD 1 ([], []))
  , buyer_details := sectionDict (all_sections.getD 2 ([], []))
  , property_details := sectionDict (all_sections.getD 3 ([], []))
  , khasra_details := sectionDict (all_sections.getD 4 ([], [])) }

/-- The truncating-pairing property of one persisted section: every stored
pair comes from equal positions `i` below the shorter length (excess labels
or values are dropped, nothing is padded), and every label below the
shorter length is a stored key. -/
def SectionDrops (labels values : List String) (d : List (String × String)) : Prop :=
  (∀ k v : String, (k, v) ∈ d →
    ∃ i, i < min labels.length values.length ∧
      labels.get? i = some k ∧ values.get? i = some v) ∧
  (∀ (i : ℕ) (l : String), i < min labels.length values.length →
    labels.get? i = some l → ∃ w, (l, w) ∈ d)

/-! ## `_screenshot_element`: crop geometry -/

/-- The element geometry the driver reports: `location_once_scrolled_into_view`
(`x`, `y`) and `size` (`w`, `h`), in CSS pixels (possibly fractional). -/
structure PageElement where
  x : ℚ
  y : ℚ
  w : ℚ
  h : ℚ

/-- What `_screenshot_element` produces: either the image returned by
`Image.crop` (with its pixel dimensions — a zero dimension is an empty
image), or the `ValueError` PIL raises when the crop box is inverted
(`right < left` or `lower < upper`). -/
inductive CropResult where
  | image (width height : ℤ)
  | valueError
deriving DecidableEq

/-- Python `int()` on a rational: truncation toward zero. -/
def pyInt (q : ℚ) : ℤ := if 0 ≤ q then Int.floor q else -Int.floor (-q)

/-- `_screenshot_element` (lines 130-152): scroll into view, read the device
pixel ratio (falling back to 1 when the script returns a falsy value), take
a full-page screenshot of `imgW × imgH` pixels, and crop the element's box
scaled by the ratio, clamping `left`/`top` to 0 and `right`/`bottom` to the
image dimensions.  The crop is returned unconditionally; no error value of
the function's own exists. -/
def _screenshot_element (dprRaw : ℚ) (imgW imgH : ℕ) (e : PageElement) : CropResult :=
  let dpr := if dprRaw = 0 then 1 else dprRaw
  let left := max 0 (pyInt (e.x * dpr))
  let top := max 0 (pyInt (e.y * dpr))
  let right := min (imgW : ℤ) (pyInt ((e.x + e.w) * dpr))
  let bottom := min (imgH : ℤ) (pyInt ((e.y + e.h) * dpr))
  if right < left then CropResult.valueError
  else if bottom < top then CropResult.valueError
  else CropResult.image (right - left) (bottom - top)

/-! ## `trigger_scrape`: exit paths and `driver.quit()` counts -/

/-- The outcome of each phase of one `trigger_scrape` run in which the
browser session was opened successfully. -/
structure Scenario where
  /-- Some login attempt (1..10) succeeds: CAPTCHA #1 answered and the URL
  changed (line 280). -/
  loginSucceeds : Bool
  /-- `len(search_certified) > 2` on the post-login navigation (line 296). -/
  navLinksFound : Bool
  /-- `len(other_details) > 2` inside the filter attempt (line 317). -/
  otherDetailsFound : Bool
  /-- Some filter attempt (1..10) succeeds: CAPTCHA #2 answered and the
  results table appeared (line 387). -/
  filterSucceeds : Bool
  /-- An unhandled exception escapes the body and reaches the
  `except` handler at line 541. -/
  raises : Bool

/-- The JSON responses `trigger_scrape` can return once a session is open. -/
inductive ScrapeResponse where
  | ok200
  | loginFailed500
  | navMissing500
  | otherDetailsMissing500
  | filterFailed500
  | exception500
deriving DecidableEq

/-- The body of the `try:` block of `trigger_scrape` (lines 213-544), after
the driver was opened: the response returned, paired with the number of
explicit `driver.quit()` calls executed before that return
(lines 290, 300, 321, 397).  The `except` handler (line 541) performs no
quit of its own. -/
def scrapeBody (s : Scenario) : ScrapeResponse × ℕ :=
  if s.raises then (ScrapeResponse.exception500, 0)
  else if !s.loginSucceeds then (ScrapeResponse.loginFailed500, 1)
  else if !s.navLinksFound then (ScrapeResponse.navMissing500, 1)
  else if !s.otherDetailsFound then (ScrapeResponse.otherDetailsMissing500, 1)
  else if !s.filterSucceeds then (ScrapeResponse.filterFailed500, 1)
  else (ScrapeResponse.ok200, 0)

/-- `trigger_scrape` with its `finally:` block (lines 545-547): every return
out of the `try:` body additionally runs `if driver: driver.quit()`, one
more quit on every exit path of an opened session.  Result: (response,
total number of `driver.quit()` invocations). -/
def trigger_scrape (s : Scenario) : ScrapeResponse × ℕ :=
  let r := scrapeBody s
  (r.1, r.2 + 1)

/-! ## The per-row result loop (lines 410-520) -/

/-- One results page as the row loop sees it. -/
structure RowPage where
  /-- `len(data_elements)`: the row count read before the loop (line 406). -/
  K : ℕ
  /-- `len(data_elements_refresh)` re-read at iteration `i` (line 412). -/
  refreshCount : ℕ → ℕ
  /-- Row `i` is processed to completion: detail view opened, all five
  sections extracted and `save_to_db` succeeded.  `false` means some step
  raised and the `except` at line 510 caught it. -/
  rowSucceeds : ℕ → Bool

/-- The `for i in range(len(data_elements))` loop starting at index `i`:
the bounds guard `if i >= len(data_elements_refresh): break` (line 415) ends
the loop early; a failed row is caught and the loop continues (line 520).
Returns (list of attempted row indices, number of persisted records). -/
def rowLoop (p : RowPage) (i : ℕ) : List ℕ × ℕ :=
  if _h : i < p.K then
    if p.refreshCount i ≤ i then ([], 0)
    else
      if p.rowSucceeds i then
        (i :: (rowLoop p (i + 1)).1, (rowLoop p (i + 1)).2 + 1)
      else
        (i :: (rowLoop p (i + 1)).1, (rowLoop p (i + 1)).2)
  else ([], 0)
termination_by p.K - i

/-! ## The pagination loop (lines 405-533) -/

/-- One results page as the pagination logic sees it. -/
structure ResultsPage where
  /-- The `WebDriverWait` for `td.mat-cell>span.link` at the top of the
  `while` body (line 406) raises (this wait is outside any local `try`). -/
  rowsWaitFails : Bool
  /-- `find_element` for `button.mat-paginator-navigation-next` raises
  (control absent, line 524). -/
  nextFindFails : Bool
  /-- `get_attribute("class") or ""` of the next button (line 525). -/
  nextClass : String
  /-- The click on the next button or the repopulation wait raises
  (lines 528-531). -/
  nextClickFails : Bool

/-- How the `while True:` loop ends. -/
inductive RunEnd where
  | done
  | error
deriving DecidableEq

/-- The `while True:` pagination loop over the remaining sequence of pages:
each iteration processes the current page's rows, then locates the next
control inside a `try` whose `except` breaks the loop (line 532); a
`disabled` substring in the control's class also breaks (line 526).
Breaking falls through to the success status (`RunEnd.done`); an exception
at the top-of-body wait escapes to the outer handler (`RunEnd.error`).
Returns (number of pages visited, how the run ended). -/
def paginationLoop : List ResultsPage → ℕ × RunEnd
  | [] => (0, RunEnd.done)
  | p :: rest =>
    if p.rowsWaitFails then (0, RunEnd.error)
    else if p.nextFindFails then (1, RunEnd.done)
    else if containsDisabled p.nextClass then (1, RunEnd.done)
    else if p.nextClickFails then (1, RunEnd.done)
    else ((paginationLoop rest).1 + 1, (paginationLoop rest).2)

/-! ## Lemmas about the relay loop -/

theorem wait_eq_of_truthy (slot : Option String) (n : ℕ) (h : truthyStr slot = true)
    (hn : 1 ≤ n) : _wait_for_captcha_value slot n = (slot, none) := by
  obtain ⟨k, rfl⟩ : ∃ k, n = k + 1 := ⟨n - 1, by omega⟩
  simp [_wait_for_captcha_value, h]

theorem wait_eq_of_falsy (slot : Option String) (h : truthyStr slot = false) :
    ∀ n, _wait_for_captcha_value slot n = (none, slot) := by
  intro n
  induction n with
  | zero => rfl
  | succ k ih => simpa [_wait_for_captcha_value, h] using ih

theorem wait_some_inv (slot : Option String) (n : ℕ) (v : String) (s' : Option String)
    (h : _wait_for_captcha_value slot n = (some v, s')) :
    truthyStr slot = true ∧ slot = some v ∧ s' = none := by
  induction n with
  | zero => simp [_wait_for_captcha_value] at h
  | succ k ih =>
    by_cases ht : truthyStr slot = true
    · simp only [_wait_for_captcha_value, ht, if_true] at h
      injection h with h1 h2
      exact ⟨ht, h1, h2.symm⟩
    · simp only [_wait_for_captcha_value, ht, if_false, Bool.false_eq_true] at h
      exact ih h

/-- C3: for every input string, including the empty string, `parse_address`
returns a mapping with exactly the nine fixed keys, in order, each present
(absent fields carry the empty string value, produced by `optStr`). -/
theorem parse_address_nine_keys (addr : String) :
    (parse_address addr).map Prod.fst =
      ["Ward/Colony", "District", "Village", "Sub-Area/Road", "Tehsil/Locality",
        "PIN Code", "Landmark", "State", "Country"] := rfl

/-- C2: a non-empty value already in the slot is returned by `await` within
the first poll (any poll budget of at least one suffices), the slot is
cleared, and a second immediate `await` on the now-empty slot times out
(`none`) — consumption is exactly-once. -/
theorem wait_for_captcha_value_consumes_once (v : String) (hv : v ≠ "") (n m : ℕ)
    (hn : 1 ≤ n) :
    _wait_for_captcha_value (some v) n = (some v, none) ∧
    _wait_for_captcha_value none m = (none, none) := by
  constructor
  · exact wait_eq_of_truthy (some v) n (by simp [truthyStr, hv]) hn
  · exact wait_eq_of_falsy none rfl m

/-- C2 witness at the default budget of 180 polls. -/
theorem wait_for_captcha_value_consumes_once_witness :
    _wait_for_captcha_value (some "k7xq") 180 = (some "k7xq", none) ∧
    _wait_for_captcha_value none 180 = (none, none) :=
  wait_for_captcha_value_consumes_once "k7xq" (by decide) 180 180 (by decide)

/-- C10: `await` never returns the empty string: a slot holding the falsy
`""` is treated as absent (polling continues, the slot is left in place),
any value actually returned is non-empty, and the intake side of
`get_status` either leaves the slot unchanged or stores exactly the
whitespace-stripped, non-empty submitted text. -/
theorem wait_never_returns_empty (slot s' : Option String) (n m : ℕ) (v : String)
    (raw : Option String) (runEx : Bool) (slot0 : Option String)
    (h : _wait_for_captcha_value slot n = (some v, s')) :
    v ≠ "" ∧
    _wait_for_captcha_value (some "") m = (none, some "") ∧
    (get_status_store raw runEx slot0 = slot0 ∨
      (get_status_store raw runEx slot0 = some ((raw.getD "").trim) ∧
        (raw.getD "").trim ≠ "")) := by
  obtain ⟨ht, hslot, -⟩ := wait_some_inv slot n v s' h
  refine ⟨?_, wait_eq_of_falsy (some "") rfl m, ?_⟩
  · subst hslot
    simpa [truthyStr] using ht
  · unfold get_status_store
    by_cases hc : (raw.getD "").trim ≠ "" ∧ runEx = true
    · exact Or.inr ⟨if_pos hc, hc.1⟩
    · exact Or.inl (if_neg hc)

/-- C10 witness. -/
theorem wait_never_returns_empty_witness :
    "abc" ≠ "" ∧
    _wait_for_captcha_value (some "") 180 = (none, some "") ∧
    (get_status_store (some "  abc  ") true none = none ∨
      (get_status_store (some "  abc  ") true none =
          some (((some "  abc  ").getD "").trim) ∧
        ((some "  abc  ").getD "").trim ≠ "")) :=
  wait_never_returns_empty (some "abc") none 1 180 "abc" (some "  abc  ") true none
    (by decide)

/-- C1 counterexample: on the login-checkpoint-exhaustion exit path the
driver's `quit()` is invoked twice (the explicit call at line 290 plus the
`finally` block at line 547), not exactly once. -/
theorem trigger_scrape_double_quit_on_login_exhaustion :
    trigger_scrape
        { loginSucceeds := false, navLinksFound := true, otherDetailsFound := true,
          filterSucceeds := true, raises := false } =
      (ScrapeResponse.loginFailed500, 2) ∧ (2 : ℕ) ≠ 1 := by
  exact ⟨rfl, by decide⟩

/-- C1 amended: once a session is opened, `driver.quit()` is invoked at
least once and at most twice before `trigger_scrape` returns; it is invoked
exactly once precisely on the success path and on the unhandled-exception
path, and twice on the checkpoint-exhaustion and missing-element early
returns (whose explicit `quit()` is followed by the `finally` quit). -/
theorem trigger_scrape_quit_count (s : Scenario) :
    1 ≤ (trigger_scrape s).2 ∧ (trigger_scrape s).2 ≤ 2 ∧
    ((trigger_scrape s).2 = 1 ↔
      (s.raises = true ∨
        (s.loginSucceeds = true ∧ s.navLinksFound = true ∧
          s.otherDetailsFound = true ∧ s.filterSucceeds = true))) := by
  obtain ⟨a, b, c, d, e⟩ := s
  cases a <;> cases b <;> cases c <;> cases d <;> cases e <;> decide

/-! ## Lemmas about `pyDict` and `zip` -/

theorem pyDictInsert_subset (d : List (String × String)) (kv x : String × String)
    (h : x ∈ pyDictInsert d kv) : x ∈ d ∨ x = kv := by
  unfold pyDictInsert at h
  by_cases hany : (d.any (fun p => p.1 == kv.1)) = true
  · rw [if_pos hany] at h
    obtain ⟨p, hp, hpe⟩ := List.mem_map.mp h
    by_cases hk : (p.1 == kv.1) = true
    · rw [if_pos hk] at hpe
      right
      have hk' : p.1 = kv.1 := by simpa using hk
      rw [← hpe, hk']
    · rw [if_neg hk] at hpe
      exact Or.inl (hpe ▸ hp)
  · rw [if_neg hany] at h
    rcases List.mem_append.mp h with h' | h'
    · exact Or.inl h'
    · exact Or.inr (by simpa using h')

theorem pyDict_subset (l : List (String × String)) (x : String × String)
    (h : x ∈ pyDict l) : x ∈ l := by
  suffices H : ∀ (l acc : List (String × String)),
      x ∈ l.foldl pyDictInsert acc → x ∈ acc ∨ x ∈ l by
    rcases H l [] h with h' | h'
    · exact absurd h' (List.not_mem_nil x)
    · exact h'
  intro l
  induction l with
  | nil => intro acc h; exact Or.inl h
  | cons a t ih =>
    intro acc h
    rcases ih (pyDictInsert acc a) h with h' | h'
    · rcases pyDictInsert_subset acc a x h' with h'' | h''
      · exact Or.inl h''
      · exact Or.inr (by simp [h''])
    · exact Or.inr (List.mem_cons_of_mem a h')

theorem pyDictInsert_keeps_key (d : List (String × String)) (kv : String × String)
    (key : String) (h : ∃ w, (key, w) ∈ d) : ∃ w, (key, w) ∈ pyDictInsert d kv := by
  obtain ⟨w, hw⟩ := h
  unfold pyDictInsert
  by_cases hany : (d.any (fun p => p.1 == kv.1)) = true
  · rw [if_pos hany]
    by_cases hk : (key == kv.1) = true
    · exact ⟨kv.2, List.mem_map.mpr ⟨(key, w), hw, by simp [hk]⟩⟩
    · exact ⟨w, List.mem_map.mpr ⟨(key, w), hw, by simp [hk]⟩⟩
  · rw [if_neg hany]
    exact ⟨w, List.mem_append_left _ hw⟩

theorem pyDictInsert_new_key (d : List (String × String)) (kv : String × String) :
    ∃ w, (kv.1, w) ∈ pyDictInsert d kv := by
  unfold pyDictInsert
  by_cases hany : (d.any (fun p => p.1 == kv.1)) = true
  · rw [if_pos hany]
    obtain ⟨p, hp, hpk⟩ := List.any_eq_true.mp hany
    have hk : p.1 = kv.1 := by simpa using hpk
    refine ⟨kv.2, List.mem_map.mpr ⟨p, hp, ?_⟩⟩
    simp [hpk, hk]
  · rw [if_neg hany]
    exact ⟨kv.2, List.mem_append_right _ (by simp)⟩

theorem pyDict_keeps_keys (l : List (String × String)) (key : String)
    (h : ∃ w, (key, w) ∈ l) : ∃ w, (key, w) ∈ pyDict l := by
  suffices H : ∀ (l acc : List (String × String)),
      ((∃ w, (key, w) ∈ acc) ∨ (∃ w, (key, w) ∈ l)) →
      ∃ w, (key, w) ∈ l.foldl pyDictInsert acc by
    exact H l [] (Or.inr h)
  intro l
  induction l with
  | nil =>
    intro acc h
    rcases h with h | ⟨w, hw⟩
    · exact h
    · exact absurd hw (List.not_mem_nil _)
  | cons a t ih =>
    intro acc h
    apply ih (pyDictInsert acc a)
    rcases h with h | ⟨w, hw⟩
    · exact Or.inl (pyDictInsert_keeps_key acc a key h)
    · rcases List.mem_cons.mp hw with h' | h'
      · left
        subst h'
        exact pyDictInsert_new_key acc (key, w)
      · exact Or.inr ⟨w, h'⟩

theorem zip_mem_index (ls vs : List String) (k v : String) (h : (k, v) ∈ ls.zip vs) :
    ∃ i, i < min ls.length vs.length ∧ ls.get? i = some k ∧ vs.get? i = some v := by
  induction ls generalizing vs with
  | nil => simp at h
  | cons a t ih =>
    cases vs with
    | nil => simp at h
    | cons b u =>
      rcases List.mem_cons.mp h with h' | h'
      · injection h' with h1 h2
        subst h1; subst h2
        exact ⟨0, by simp, rfl, rfl⟩
      · obtain ⟨i, hi, h1, h2⟩ := ih u h'
        refine ⟨i + 1, ?_, h1, h2⟩
        simp only [List.length_cons]
        omega

theorem zip_index_mem (ls vs : List String) (i : ℕ)
    (hi : i < min ls.length vs.length) :
    ∃ k v, ls.get? i = some k ∧ vs.get? i = some v ∧ (k, v) ∈ ls.zip vs := by
  induction ls generalizing vs i with
  | nil => simp at hi
  | cons a t ih =>
    cases vs with
    | nil => simp at hi
    | cons b u =>
      cases i with
      | zero => exact ⟨a, b, rfl, rfl, by simp⟩
      | succ j =>
        have hj : j < min t.length u.length := by
          simp only [List.length_cons] at hi
          omega
        obtain ⟨k, v, h1, h2, h3⟩ := ih u j hj
        exact ⟨k, v, h1, h2, List.mem_cons_of_mem _ h3⟩

theorem sectionDict_drops (labels values : List String) :
    SectionDrops labels values (sectionDict (labels, values)) := by
  constructor
  · intro k v hkv
    exact zip_mem_index labels values k v (pyDict_subset _ _ hkv)
  · intro i l hi hl
    obtain ⟨k, v, h1, h2, h3⟩ := zip_index_mem labels values i hi
    rw [hl] at h1
    injection h1 with h1
    subst h1
    exact pyDict_keeps_keys _ l ⟨v, h3⟩

/-- C6: for every extracted section, the mapping persisted by `save_to_db`
pairs label `i` with value `i` only for `i` below the shorter of the two
lists — trailing excess labels or values are silently dropped and nothing
is padded — while every label below the shorter length does get stored. -/
theorem save_to_db_zip_truncation (s0 s1 s2 s3 s4 : List String × List String) :
    SectionDrops s0.1 s0.2 (save_to_db [s0, s1, s2, s3, s4]).registration_details ∧
    SectionDrops s1.1 s1.2 (save_to_db [s0, s1, s2, s3, s4]).seller_details ∧
    SectionDrops s2.1 s2.2 (save_to_db [s0, s1, s2, s3, s4]).buyer_details ∧
    SectionDrops s3.1 s3.2 (save_to_db [s0, s1, s2, s3, s4]).property_details ∧
    SectionDrops s4.1 s4.2 (save_to_db [s0, s1, s2, s3, s4]).khasra_details :=
  ⟨sectionDict_drops s0.1 s0.2, sectionDict_drops s1.1 s1.2, sectionDict_drops s2.1 s2.2,
    sectionDict_drops s3.1 s3.2, sectionDict_drops s4.1 s4.2⟩

/-- C6 witness: a section with three labels and two values persists the
pair ("A", "1") at index 0, below `min 3 2`; the third label is dropped. -/
theorem save_to_db_zip_truncation_witness :
    ∃ i, i < min 3 2 ∧ (["A", "B", "C"] : List String).get? i = some "A" ∧
      (["1", "2"] : List String).get? i = some "1" :=
  (save_to_db_zip_truncation (["A", "B", "C"], ["1", "2"]) ([], []) ([], []) ([], [])
      ([], [])).1.1 "A" "1" (by decide)

/-! ## The row loop -/

theorem rowLoop_spec (p : RowPage) (href : ∀ i, p.refreshCount i = p.K) :
    ∀ (n j : ℕ), p.K - j = n →
      rowLoop p j = (List.range' j (p.K - j),
        ((List.range' j (p.K - j)).filter p.rowSucceeds).length) := by
  intro n
  induction n with
  | zero =>
    intro j hj
    have hK : ¬ j < p.K := by omega
    rw [rowLoop, dif_neg hK, hj]
    simp
  | succ m ih =>
    intro j hj
    have hK : j < p.K := by omega
    have hg : ¬ p.refreshCount j ≤ j := by rw [href j]; omega
    have hr2 : p.K - (j + 1) = m := by omega
    have hexp : List.range' j (p.K - j) = j :: List.range' (j + 1) (p.K - (j + 1)) := by
      rw [hj, hr2]
      rfl
    rw [rowLoop, dif_pos hK, if_neg hg, ih (j + 1) hr2, hexp]
    by_cases hs : p.rowSucceeds j = true
    · simp [List.filter_cons, hs]
    · simp only [Bool.not_eq_true] at hs
      simp [List.filter_cons, hs]

/-- C7: on a stable results page of `K` rows where exactly row `k` fails
(its exception is caught by the handler at line 510), the loop attempts
every index `0..K-1` — in particular every index other than `k` — and
persists exactly `K - 1` records. -/
theorem row_loop_single_failure_isolation (p : RowPage) (k : ℕ) (hk : k < p.K)
    (href : ∀ i, p.refreshCount i = p.K)
    (hfail : ∀ i, p.rowSucceeds i = (i != k)) :
    (rowLoop p 0).1 = List.range p.K ∧
    (∀ j, j < p.K → j ≠ k → j ∈ (rowLoop p 0).1) ∧
    (rowLoop p 0).2 = p.K - 1 := by
  have hspec := rowLoop_spec p href (p.K - 0) 0 rfl
  have hrange : List.range' 0 (p.K - 0) = List.range p.K := by
    rw [Nat.sub_zero, List.range_eq_range']
  rw [hrange] at hspec
  have hfst : (rowLoop p 0).1 = List.range p.K := by rw [hspec]
  refine ⟨hfst, ?_, ?_⟩
  · intro j hj _
    rw [hfst]
    exact List.mem_range.mpr hj
  · rw [hspec]
    have hfun : p.rowSucceeds = fun i => i != k := funext hfail
    rw [hfun]
    have hnd : (List.range p.K).Nodup := List.nodup_range p.K
    have herase : (List.range p.K).filter (fun i => i != k) =
        (List.range p.K).erase k := (hnd.erase_eq_filter k).symm
    rw [herase, List.length_erase_of_mem (List.mem_range.mpr hk), List.length_range]

/-- C7 witness: three rows, row 1 fails, rows 0 and 2 are attempted and
exactly two records persist. -/
theorem row_loop_single_failure_isolation_witness :
    (rowLoop ⟨3, fun _ => 3, fun i => i != 1⟩ 0).1 = List.range 3 ∧
    (∀ j, j < 3 → j ≠ 1 →
      j ∈ (rowLoop ⟨3, fun _ => 3, fun i => i != 1⟩ 0).1) ∧
    (rowLoop ⟨3, fun _ => 3, fun i => i != 1⟩ 0).2 = 3 - 1 :=
  row_loop_single_failure_isolation ⟨3, fun _ => 3, fun i => i != 1⟩ 1
    (by decide) (fun _ => rfl) (fun _ => rfl)

/-! ## The pagination loop -/

theorem pagination_done_aux (pages : List ResultsPage) (hne : pages ≠ [])
    (hrows : ∀ p ∈ pages, p.rowsWaitFails = false)
    (hmid : ∀ p ∈ pages.dropLast, p.nextFindFails = false ∧
      containsDisabled p.nextClass = false ∧ p.nextClickFails = false)
    (hlast : ∀ p, pages.getLast? = some p → containsDisabled p.nextClass = true) :
    paginationLoop pages = (pages.length, RunEnd.done) := by
  induction pages with
  | nil => exact absurd rfl hne
  | cons p rest ih =>
    have hp : p.rowsWaitFails = false := hrows p (List.mem_cons_self p rest)
    cases rest with
    | nil =>
      have hd : containsDisabled p.nextClass = true := hlast p rfl
      by_cases hf : p.nextFindFails = true
      · simp [paginationLoop, hp, hf]
      · simp only [Bool.not_eq_true] at hf
        simp [paginationLoop, hp, hf, hd]
    | cons q2 qs =>
      have hpd : p ∈ (p :: q2 :: qs).dropLast := by
        rw [show (p :: q2 :: qs).dropLast = p :: (q2 :: qs).dropLast from rfl]
        exact List.mem_cons_self _ _
      obtain ⟨hf, hd, hc⟩ := hmid p hpd
      have ihr := ih (by simp)
        (fun x hx => hrows x (List.mem_cons_of_mem _ hx))
        (fun x hx => hmid x (by
          rw [show (p :: q2 :: qs).dropLast = p :: (q2 :: qs).dropLast from rfl]
          exact List.mem_cons_of_mem _ hx))
        (fun x hx => hlast x (by rw [List.getLast?_cons_cons]; exact hx))
      have step : paginationLoop (p :: q2 :: qs) =
          ((paginationLoop (q2 :: qs)).1 + 1, (paginationLoop (q2 :: qs)).2) := by
        conv_lhs => rw [paginationLoop]
        rw [hp, hf, hd, hc]
        simp
      rw [step, ihr]
      simp

/-- C8: the pagination loop terminates at `Done`: over a finite sequence of
`N` pages whose last page's next control carries the `disabled` class (and
whose earlier pages advance normally), every page is visited exactly once
and the run falls through to the final success status; moreover an absent
next control, or an exception while clicking it or awaiting repopulation,
also ends the run at `Done` after the current page rather than erroring. -/
theorem pagination_terminates_done (pages : List ResultsPage) (q : ResultsPage)
    (rest2 : List ResultsPage) (hne : pages ≠ [])
    (hrows : ∀ p ∈ pages, p.rowsWaitFails = false)
    (hmid : ∀ p ∈ pages.dropLast, p.nextFindFails = false ∧
      containsDisabled p.nextClass = false ∧ p.nextClickFails = false)
    (hlast : ∀ p, pages.getLast? = some p → containsDisabled p.nextClass = true)
    (hq : q.rowsWaitFails = false) :
    paginationLoop pages = (pages.length, RunEnd.done) ∧
    (q.nextFindFails = true → paginationLoop (q :: rest2) = (1, RunEnd.done)) ∧
    (q.nextFindFails = false → containsDisabled q.nextClass = false →
      q.nextClickFails = true → paginationLoop (q :: rest2) = (1, RunEnd.done)) := by
  refine ⟨pagination_done_aux pages hne hrows hmid hlast, ?_, ?_⟩
  · intro hf
    simp [paginationLoop, hq, hf]
  · intro hf hd hc
    simp [paginationLoop, hq, hf, hd, hc]

/-- C8 witness: two pages, the second one's next control disabled, plus the
absent-control and click-exception endings on a one-page run. -/
theorem pagination_terminates_done_witness :
    paginationLoop
        [⟨false, false, "mat-next", false⟩, ⟨false, false, "mat-next disabled", false⟩] =
      (2, RunEnd.done) ∧
    ((⟨false, true, "w", false⟩ : ResultsPage).nextFindFails = true →
      paginationLoop [⟨false, true, "w", false⟩] = (1, RunEnd.done)) ∧
    ((⟨false, true, "w", false⟩ : ResultsPage).nextFindFails = false →
      containsDisabled (⟨false, true, "w", false⟩ : ResultsPage).nextClass = false →
      (⟨false, true, "w", false⟩ : ResultsPage).nextClickFails = true →
      paginationLoop [⟨false, true, "w", false⟩] = (1, RunEnd.done)) := by
  refine pagination_terminates_done
    [⟨false, false, "mat-next", false⟩, ⟨false, false, "mat-next disabled", false⟩]
    ⟨false, true, "w", false⟩ [] (by simp) ?_ ?_ ?_ rfl
  · intro p hp
    rcases List.mem_cons.mp hp with h | h
    · rw [h]
    · rcases List.mem_cons.mp h with h' | h'
      · rw [h']
      · exact absurd h' (List.not_mem_nil p)
  · intro p hp
    have h1 : p = (⟨false, false, "mat-next", false⟩ : ResultsPage) := by
      have hd : ([⟨false, false, "mat-next", false⟩,
          (⟨false, false, "mat-next disabled", false⟩ : ResultsPage)]).dropLast =
          [⟨false, false, "mat-next", false⟩] := rfl
      rw [hd] at hp
      rcases List.mem_cons.mp hp with h | h
      · exact h
      · exact absurd h (List.not_mem_nil p)
    rw [h1]
    exact ⟨rfl, by decide, rfl⟩
  · intro p hp
    have hg : ([⟨false, false, "mat-next", false⟩,
        (⟨false, false, "mat-next disabled", false⟩ : ResultsPage)]).getLast? =
        some ⟨false, false, "mat-next disabled", false⟩ := rfl
    rw [hg] at hp
    injection hp with h
    rw [← h]
    decide

/-! ## The screenshot crop -/

theorem pyInt_of_nonneg (q : ℚ) (h : 0 ≤ q) : pyInt q = Int.floor q := if_pos h

/-- C9 counterexample: a zero-width element within the viewport yields an
empty (zero-width) cropped image which `_screenshot_element` returns as a
normal result — no `CaptureFailed` error is produced for the degenerate
crop. -/
theorem screenshot_element_empty_crop_counterexample :
    _screenshot_element 1 100 100 ⟨5, 5, 0, 10⟩ = CropResult.image 0 10 ∧
    CropResult.image 0 10 ≠ CropResult.valueError := by
  constructor
  · show _screenshot_element 1 100 100 ⟨5, 5, 0, 10⟩ = CropResult.image 0 10
    rw [_screenshot_element]
    norm_num [pyInt]
  · intro h
    cases h

/-- C9 amended: `_screenshot_element` never produces a `CaptureFailed`
value.  When the scaled element box lies within the screenshot and spans at
least one device pixel in each direction, the returned crop is non-empty;
but a zero-size element within the viewport yields an *empty image result*
(zero width), not an error — an error (PIL's `ValueError` on an inverted
box) can arise only from the clamping, when the element lies wholly outside
the screenshot bounds. -/
theorem screenshot_element_crop_spec (dprRaw : ℚ) (imgW imgH : ℕ) (e e2 : PageElement)
    (h1 : 0 < dprRaw) (hx : 0 ≤ e.x) (hy : 0 ≤ e.y)
    (hw : 1 ≤ e.w * dprRaw) (hh : 1 ≤ e.h * dprRaw)
    (hxw : (e.x + e.w) * dprRaw ≤ (imgW : ℚ)) (hyh : (e.y + e.h) * dprRaw ≤ (imgH : ℚ)) :
    (∃ a b : ℤ, _screenshot_element dprRaw imgW imgH e = CropResult.image a b ∧
      0 < a ∧ 0 < b) ∧
    (e2.w = 0 → 0 ≤ e2.x → e2.x * dprRaw ≤ (imgW : ℚ) → 0 ≤ e2.y →
      1 ≤ e2.h * dprRaw → (e2.y + e2.h) * dprRaw ≤ (imgH : ℚ) →
      ∃ b : ℤ, _screenshot_element dprRaw imgW imgH e2 = CropResult.image 0 b) := by
  have hd0 : ¬ dprRaw = 0 := ne_of_gt h1
  constructor
  · have hA0 : (0 : ℚ) ≤ e.x * dprRaw := mul_nonneg hx h1.le
    have hC0 : (0 : ℚ) ≤ e.y * dprRaw := mul_nonneg hy h1.le
    have hB0 : (0 : ℚ) ≤ (e.x + e.w) * dprRaw := by nlinarith
    have hD0 : (0 : ℚ) ≤ (e.y + e.h) * dprRaw := by nlinarith
    have hAB : Int.floor (e.x * dprRaw) + 1 ≤ Int.floor ((e.x + e.w) * dprRaw) := by
      have hstep : e.x * dprRaw + 1 ≤ (e.x + e.w) * dprRaw := by nlinarith
      calc Int.floor (e.x * dprRaw) + 1 = Int.floor (e.x * dprRaw + 1) :=
            (Int.floor_add_one (e.x * dprRaw)).symm
        _ ≤ Int.floor ((e.x + e.w) * dprRaw) := Int.floor_le_floor hstep
    have hCD : Int.floor (e.y * dprRaw) + 1 ≤ Int.floor ((e.y + e.h) * dprRaw) := by
      have hstep : e.y * dprRaw + 1 ≤ (e.y + e.h) * dprRaw := by nlinarith
      calc Int.floor (e.y * dprRaw) + 1 = Int.floor (e.y * dprRaw + 1) :=
            (Int.floor_add_one (e.y * dprRaw)).symm
        _ ≤ Int.floor ((e.y + e.h) * dprRaw) := Int.floor_le_floor hstep
    have hBW : Int.floor ((e.x + e.w) * dprRaw) ≤ (imgW : ℤ) := by
      calc Int.floor ((e.x + e.w) * dprRaw) ≤ Int.floor ((imgW : ℚ)) :=
            Int.floor_le_floor hxw
        _ = (imgW : ℤ) := Int.floor_natCast imgW
    have hDH : Int.floor ((e.y + e.h) * dprRaw) ≤ (imgH : ℤ) := by
      calc Int.floor ((e.y + e.h) * dprRaw) ≤ Int.floor ((imgH : ℚ)) :=
            Int.floor_le_floor hyh
        _ = (imgH : ℤ) := Int.floor_natCast imgH
    have hAf : (0 : ℤ) ≤ Int.floor (e.x * dprRaw) := Int.floor_nonneg.mpr hA0
    have hCf : (0 : ℤ) ≤ Int.floor (e.y * dprRaw) := Int.floor_nonneg.mpr hC0
    refine ⟨Int.floor ((e.x + e.w) * dprRaw) - Int.floor (e.x * dprRaw),
      Int.floor ((e.y + e.h) * dprRaw) - Int.floor (e.y * dprRaw), ?_, by omega, by omega⟩
    rw [_screenshot_element]
    simp only [if_neg hd0]
    rw [pyInt_of_nonneg _ hA0, pyInt_of_nonneg _ hB0, pyInt_of_nonneg _ hC0,
      pyInt_of_nonneg _ hD0]
    rw [max_eq_right hAf, max_eq_right hCf, min_eq_right hBW, min_eq_right hDH]
    rw [if_neg (by omega), if_neg (by omega)]
  · intro hw0 hx2 hxw2 hy2 hh2 hyh2
    have hA0 : (0 : ℚ) ≤ e2.x * dprRaw := mul_nonneg hx2 h1.le
    have hC0 : (0 : ℚ) ≤ e2.y * dprRaw := mul_nonneg hy2 h1.le
    have hD0 : (0 : ℚ) ≤ (e2.y + e2.h) * dprRaw := by nlinarith
    have hsum : (e2.x + e2.w) * dprRaw = e2.x * dprRaw := by rw [hw0, add_zero]
    have hAW : Int.floor (e2.x * dprRaw) ≤ (imgW : ℤ) := by
      calc Int.floor (e2.x * dprRaw) ≤ Int.floor ((imgW : ℚ)) := Int.floor_le_floor hxw2
        _ = (imgW : ℤ) := Int.floor_natCast imgW
    have hCD : Int.floor (e2.y * dprRaw) + 1 ≤ Int.floor ((e2.y + e2.h) * dprRaw) := by
      have hstep : e2.y * dprRaw + 1 ≤ (e2.y + e2.h) * dprRaw := by nlinarith
      calc Int.floor (e2.y * dprRaw) + 1 = Int.floor (e2.y * dprRaw + 1) :=
            (Int.floor_add_one (e2.y * dprRaw)).symm
        _ ≤ Int.floor ((e2.y + e2.h) * dprRaw) := Int.floor_le_floor hstep
    have hDH : Int.floor ((e2.y + e2.h) * dprRaw) ≤ (imgH : ℤ) := by
      calc Int.floor ((e2.y + e2.h) * dprRaw) ≤ Int.floor ((imgH : ℚ)) :=
            Int.floor_le_floor hyh2
        _ = (imgH : ℤ) := Int.floor_natCast imgH
    have hAf : (0 : ℤ) ≤ Int.floor (e2.x * dprRaw) := Int.floor_nonneg.mpr hA0
    have hCf : (0 : ℤ) ≤ Int.floor (e2.y * dprRaw) := Int.floor_nonneg.mpr hC0
    refine ⟨Int.floor ((e2.y + e2.h) * dprRaw) - Int.floor (e2.y * dprRaw), ?_⟩
    rw [_screenshot_element]
    simp only [if_neg hd0]
    rw [hsum, pyInt_of_nonneg _ hA0, pyInt_of_nonneg _ hC0, pyInt_of_nonneg _ hD0]
    rw [max_eq_right hAf, max_eq_right hCf, min_eq_right hAW, min_eq_right hDH]
    rw [if_neg (by omega), if_neg (by omega)]
    rw [sub_self]

/-- C9 witness: a 30x20 element at (10,10) under device pixel ratio 2 in a
200x200 screenshot yields a non-empty crop; a zero-width element at (3,4)
yields an empty image, not an error. -/
theorem screenshot_element_crop_spec_witness :
    (∃ a b : ℤ, _screenshot_element 2 200 200 ⟨10, 10, 30, 20⟩ = CropResult.image a b ∧
      0 < a ∧ 0 < b) ∧
    ((⟨3, 4, 0, 5⟩ : PageElement).w = 0 → 0 ≤ (⟨3, 4, 0, 5⟩ : PageElement).x →
      (⟨3, 4, 0, 5⟩ : PageElement).x * 2 ≤ ((200 : ℕ) : ℚ) →
      0 ≤ (⟨3, 4, 0, 5⟩ : PageElement).y →
      1 ≤ (⟨3, 4, 0, 5⟩ : PageElement).h * 2 →
      ((⟨3, 4, 0, 5⟩ : PageElement).y + (⟨3, 4, 0, 5⟩ : PageElement).h) * 2 ≤
        ((200 : ℕ) : ℚ) →
      ∃ b : ℤ, _screenshot_element 2 200 200 ⟨3, 4, 0, 5⟩ = CropResult.image 0 b) :=
  screenshot_element_crop_spec 2 200 200 ⟨10, 10, 30, 20⟩ ⟨3, 4, 0, 5⟩
    (by norm_num) (by norm_num) (by norm_num) (by norm_num) (by norm_num)
    (by norm_num) (by norm_num)

/-! ## Lemmas about the pattern matchers -/

theorem matchLitCI_sound (lit : List Char) : ∀ (s r : List Char),
    matchLitCI lit s = some r → ∃ p, s = p ++ r ∧ p.map Char.toLower = lit := by
  induction lit with
  | nil =>
    intro s r h
    have hs : s = r := by
      simpa [matchLitCI] using h
    exact ⟨[], by simp [hs], rfl⟩
  | cons a as ih =>
    intro s r h
    cases s with
    | nil => simp [matchLitCI] at h
    | cons c cs =>
      simp only [matchLitCI] at h
      by_cases hc : c.toLower = a
      · rw [if_pos hc] at h
        obtain ⟨p, hs, hp⟩ := ih cs r h
        exact ⟨c :: p, by rw [List.cons_append, hs], by simp [hp, hc]⟩
      · rw [if_neg hc] at h
        exact absurd h (by simp)

theorem matchLitCI_complete : ∀ (p lit r : List Char),
    p.map Char.toLower = lit → matchLitCI lit (p ++ r) = some r := by
  intro p
  induction p with
  | nil =>
    intro lit r h
    rw [← h]
    rfl
  | cons c cs ih =>
    intro lit r h
    rw [← h]
    simp only [List.map_cons, List.cons_append, matchLitCI, if_pos rfl]
    exact ih _ r rfl

theorem sixDigits_sound (s d : List Char) (h : sixDigits s = some d) :
    s = d ++ s.drop 6 ∧ d.length = 6 ∧ d.all Char.isDigit = true := by
  unfold sixDigits at h
  by_cases hc : (decide ((s.take 6).length = 6) && (s.take 6).all Char.isDigit) = true
  · rw [if_pos hc] at h
    injection h with h
    subst h
    rw [Bool.and_eq_true] at hc
    exact ⟨(List.take_append_drop 6 s).symm, of_decide_eq_true hc.1, hc.2⟩
  · rw [if_neg hc] at h
    exact absurd h (by simp)

theorem sixDigits_complete (d t : List Char) (h6 : d.length = 6)
    (hd : d.all Char.isDigit = true) : sixDigits (d ++ t) = some d := by
  have htake : (d ++ t).take 6 = d := by
    rw [← h6]
    exact List.take_left d t
  unfold sixDigits
  rw [htake, if_pos (by simp [h6, hd])]

theorem searchM_sound (m : List Char → Option (List Char)) :
    ∀ (cs d : List Char), searchM m cs = some d →
      ∃ pre s', cs = pre ++ s' ∧ m s' = some d := by
  intro cs
  induction cs with
  | nil =>
    intro d h
    exact ⟨[], [], rfl, h⟩
  | cons c cs ih =>
    intro d h
    rw [searchM] at h
    cases hm : m (c :: cs) with
    | some r =>
      rw [hm] at h
      injection h with h
      subst h
      exact ⟨[], c :: cs, rfl, hm⟩
    | none =>
      rw [hm] at h
      obtain ⟨pre, s', he, hm'⟩ := ih d h
      exact ⟨c :: pre, s', by rw [he, List.cons_append], hm'⟩

theorem searchM_of_some (m : List Char → Option (List Char)) (s d : List Char)
    (h : m s = some d) : searchM m s = some d := by
  cases s with
  | nil => exact h
  | cons c cs => rw [searchM, h]

theorem searchM_append_some (m : List Char → Option (List Char)) :
    ∀ (pre s' d : List Char), m s' = some d →
      ∃ r, searchM m (pre ++ s') = some r := by
  intro pre
  induction pre with
  | nil =>
    intro s' d h
    exact ⟨d, searchM_of_some m s' d h⟩
  | cons a t ih =>
    intro s' d h
    cases hm : m (a :: (t ++ s')) with
    | some r =>
      refine ⟨r, ?_⟩
      rw [List.cons_append, searchM, hm]
    | none =>
      obtain ⟨r, hr⟩ := ih s' d h
      refine ⟨r, ?_⟩
      rw [List.cons_append, searchM, hm]
      exact hr

theorem searchM_eq_none (m : List Char → Option (List Char)) :
    ∀ (cs : List Char), (∀ s1 s2 : List Char, cs = s1 ++ s2 → m s2 = none) →
      searchM m cs = none := by
  intro cs
  induction cs with
  | nil =>
    intro h
    exact h [] [] rfl
  | cons c t ih =>
    intro h
    rw [searchM, h [] (c :: t) rfl]
    exact ih (fun s1 s2 he => h (c :: s1) s2 (by rw [he, List.cons_append]))

theorem searchM_skip (m : List Char → Option (List Char)) :
    ∀ (pre tail2 : List Char),
      (∀ s1 s2 : List Char, pre = s1 ++ s2 → s2 ≠ [] → m (s2 ++ tail2) = none) →
      searchM m (pre ++ tail2) = searchM m tail2 := by
  intro pre
  induction pre with
  | nil =>
    intro tail2 _
    rfl
  | cons a t ih =>
    intro tail2 h
    have h0 : m (a :: (t ++ tail2)) = none := by
      have := h [] (a :: t) rfl (by simp)
      rwa [List.cons_append] at this
    rw [List.cons_append, searchM, h0]
    exact ih tail2 (fun s1 s2 he hne => h (a :: s1) s2 (by rw [he, List.cons_append]) hne)

theorem matchPin_eq_nil (s : List Char) (h : matchLitCI ['p', 'i', 'n'] s = some []) :
    matchPin s = none := by
  unfold matchPin
  rw [h]
  rfl

theorem matchPin_eq_dash (s r2 : List Char)
    (h : matchLitCI ['p', 'i', 'n'] s = some ('-' :: r2)) :
    matchPin s = (match sixDigits r2 with
      | some d => some d
      | none => sixDigits ('-' :: r2)) := by
  unfold matchPin
  rw [h]
  rfl

theorem matchPin_eq_nodash (s : List Char) (c : Char) (r2 : List Char) (hc : c ≠ '-')
    (h : matchLitCI ['p', 'i', 'n'] s = some (c :: r2)) :
    matchPin s = sixDigits (c :: r2) := by
  unfold matchPin
  rw [h]
  show (match c :: r2 with
    | '-' :: r2' =>
      match sixDigits r2' with
      | some d => some d
      | none => sixDigits (c :: r2)
    | _ => sixDigits (c :: r2)) = sixDigits (c :: r2)
  split
  · next r2' heq =>
    injection heq with h1 _
    exact absurd h1 hc
  · rfl

theorem matchPin_sound (s d : List Char) (h : matchPin s = some d) :
    ∃ p dash suf : List Char, s = p ++ dash ++ d ++ suf ∧
      p.map Char.toLower = ['p', 'i', 'n'] ∧ (dash = [] ∨ dash = ['-']) ∧
      d.length = 6 ∧ d.all Char.isDigit = true := by
  cases hlit : matchLitCI ['p', 'i', 'n'] s with
  | none =>
    unfold matchPin at h
    rw [hlit] at h
    exact absurd h (by simp)
  | some r =>
    obtain ⟨p, hs, hp⟩ := matchLitCI_sound _ s r hlit
    cases r with
    | nil =>
      rw [matchPin_eq_nil s hlit] at h
      exact absurd h (by simp)
    | cons c r2 =>
      by_cases hc : c = '-'
      · subst hc
        rw [matchPin_eq_dash s r2 hlit] at h
        cases hsix : sixDigits r2 with
        | some d0 =>
          rw [hsix] at h
          injection h with h
          subst h
          obtain ⟨hr2, h6, hdig⟩ := sixDigits_sound r2 d0 hsix
          refine ⟨p, ['-'], r2.drop 6, ?_, hp, Or.inr rfl, h6, hdig⟩
          rw [hs]
          nth_rewrite 1 [hr2]
          simp
        | none =>
          rw [hsix] at h
          obtain ⟨hr, h6, hdig⟩ := sixDigits_sound _ d h
          cases d with
          | nil => simp at h6
          | cons c0 dt =>
            injection hr with h1 _
            rw [← h1, List.all_cons] at hdig
            rw [show ('-' : Char).isDigit = false from rfl] at hdig
            simp at hdig
      · rw [matchPin_eq_nodash s c r2 hc hlit] at h
        obtain ⟨hr, h6, hdig⟩ := sixDigits_sound _ d h
        refine ⟨p, [], (c :: r2).drop 6, ?_, hp, Or.inl rfl, h6, hdig⟩
        rw [hs]
        nth_rewrite 1 [hr]
        simp

theorem matchPin_complete (p dash d suf : List Char)
    (hp : p.map Char.toLower = ['p', 'i', 'n'])
    (hdash : dash = [] ∨ dash = ['-'])
    (h6 : d.length = 6) (hdig : d.all Char.isDigit = true) :
    matchPin (p ++ dash ++ d ++ suf) = some d := by
  rcases hdash with rfl | rfl
  · cases d with
    | nil => simp at h6
    | cons c dt =>
      have hcd : c.isDigit = true := by
        have hdig' := hdig
        rw [List.all_cons, Bool.and_eq_true] at hdig'
        exact hdig'.1
      have hc : c ≠ '-' := by
        intro heqc
        rw [heqc] at hcd
        exact absurd hcd (by decide)
      rw [show p ++ [] ++ (c :: dt) ++ suf = p ++ (c :: (dt ++ suf)) by simp]
      rw [matchPin_eq_nodash _ c (dt ++ suf) hc (matchLitCI_complete p _ _ hp)]
      rw [← List.cons_append]
      exact sixDigits_complete (c :: dt) suf h6 hdig
  · rw [show p ++ ['-'] ++ d ++ suf = p ++ ('-' :: (d ++ suf)) by simp]
    rw [matchPin_eq_dash _ (d ++ suf) (matchLitCI_complete p _ _ hp)]
    rw [sixDigits_complete d suf h6 hdig]

theorem parse_address_lookup_pin (addr : String) :
    (parse_address addr).lookup "PIN Code" =
      some (optStr (searchM matchPin addr.toList)) := rfl

/-- C4: if the address contains a six-digit run immediately preceded by
`pin` or `pin-` (case-insensitively), the `PIN Code` field is such a
six-digit run (the leftmost match); with no such pattern present it is the
empty string. -/
theorem parse_address_pin_code (addr : String) :
    ((∃ d0, PinOccurrence addr.toList d0) →
      ∃ d, PinOccurrence addr.toList d ∧
        (parse_address addr).lookup "PIN Code" = some (String.mk d)) ∧
    ((¬ ∃ d0, PinOccurrence addr.toList d0) →
      (parse_address addr).lookup "PIN Code" = some "") := by
  constructor
  · rintro ⟨d0, pre, p, dash, suf, hcs, hp, hdash, h6, hdig⟩
    have hm : matchPin (p ++ dash ++ d0 ++ suf) = some d0 :=
      matchPin_complete p dash d0 suf hp hdash h6 hdig
    have hcs' : addr.toList = pre ++ (p ++ dash ++ d0 ++ suf) := by
      rw [hcs]
      simp
    obtain ⟨r, hr⟩ := searchM_append_some matchPin pre _ d0 hm
    rw [← hcs'] at hr
    obtain ⟨pre2, s2, hcs2, hm2⟩ := searchM_sound matchPin addr.toList r hr
    obtain ⟨p2, dash2, suf2, hs2, hp2, hdash2, h62, hdig2⟩ := matchPin_sound s2 r hm2
    refine ⟨r, ⟨pre2, p2, dash2, suf2, ?_, hp2, hdash2, h62, hdig2⟩, ?_⟩
    · rw [hcs2, hs2]
      simp
    · rw [parse_address_lookup_pin, hr]
      rfl
  · intro hno
    rw [parse_address_lookup_pin]
    cases hs : searchM matchPin addr.toList with
    | none => rfl
    | some r =>
      exfalso
      obtain ⟨pre2, s2, hcs2, hm2⟩ := searchM_sound matchPin addr.toList r hs
      obtain ⟨p2, dash2, suf2, hs2, hp2, hdash2, h62, hdig2⟩ := matchPin_sound s2 r hm2
      exact hno ⟨r, pre2, p2, dash2, suf2, by rw [hcs2, hs2]; simp, hp2, hdash2, h62, hdig2⟩

/-- C4 witness on `"xpin-123456y"`. -/
theorem parse_address_pin_code_witness :
    ∃ d, PinOccurrence (String.toList "xpin-123456y") d ∧
      (parse_address "xpin-123456y").lookup "PIN Code" = some (String.mk d) :=
  (parse_address_pin_code "xpin-123456y").1
    ⟨['1', '2', '3', '4', '5', '6'],
      ['x'], ['p', 'i', 'n'], ['-'], ['y'], by decide, by decide, Or.inr rfl,
      by decide, by decide⟩

/-! ## The district pattern -/

theorem takeWhile_all_append (q : Char → Bool) (l : List Char) (a : Char) (t : List Char)
    (hl : l.all q = true) (ha : q a = false) :
    ((l ++ a :: t).takeWhile q) = l := by
  induction l with
  | nil => simp [List.takeWhile_cons, ha]
  | cons c cs ih =>
    rw [List.all_cons, Bool.and_eq_true] at hl
    rw [List.cons_append, List.takeWhile_cons, hl.1, if_pos rfl, ih hl.2]

theorem tailMatch_of_head (c : Char) (rest : List Char) (hc : isSpace c = false)
    (hnd : notDelim c = true) :
    tailMatch (c :: rest) = some ((c :: rest).takeWhile notDelim) := by
  unfold tailMatch
  rw [List.takeWhile_cons, hc, List.dropWhile_cons, hc]
  simp only [Bool.false_eq_true, if_false]
  rw [hnd, if_pos rfl]

theorem colonTail_value (c : Char) (vt : List Char) (delim : Char) (suf : List Char)
    (hc : isSpace c = false) (hvd : (c :: vt).all notDelim = true)
    (hdel : notDelim delim = false) :
    colonTail (':' :: c :: (vt ++ delim :: suf)) = some (c :: vt) := by
  have hvd' := hvd
  rw [List.all_cons, Bool.and_eq_true] at hvd'
  have htw : ((c :: (vt ++ delim :: suf)).takeWhile notDelim) = c :: vt := by
    rw [show c :: (vt ++ delim :: suf) = (c :: vt) ++ delim :: suf from rfl]
    exact takeWhile_all_append notDelim (c :: vt) delim suf hvd hdel
  have htm : tailMatch (c :: (vt ++ delim :: suf)) = some (c :: vt) := by
    rw [tailMatch_of_head c _ hc hvd'.1, htw]
  show (match tailMatch (c :: (vt ++ delim :: suf)) with
    | some cap => some cap
    | none => tailMatch (':' :: c :: (vt ++ delim :: suf))) = some (c :: vt)
  rw [htm]

theorem matchDistirct_at (p : List Char) (c : Char) (vt : List Char) (delim : Char)
    (suf : List Char)
    (hp : p.map Char.toLower = ['d', 'i', 's', 't', 'i', 'r', 'c', 't'])
    (hc : isSpace c = false) (hvd : (c :: vt).all notDelim = true)
    (hdel : notDelim delim = false) :
    matchDistirct (p ++ ':' :: c :: (vt ++ delim :: suf)) = some (c :: vt) := by
  unfold matchDistirct
  rw [matchLitCI_complete p _ _ hp]
  exact colonTail_value c vt delim suf hc hvd hdel

theorem matchDistirct_lit (s cap : List Char) (h : matchDistirct s = some cap) :
    (s.take 8).map Char.toLower = ['d', 'i', 's', 't', 'i', 'r', 'c', 't'] := by
  unfold matchDistirct at h
  cases hlit : matchLitCI ['d', 'i', 's', 't', 'i', 'r', 'c', 't'] s with
  | none =>
    rw [hlit] at h
    exact absurd h (by simp)
  | some r =>
    obtain ⟨p, hs, hp⟩ := matchLitCI_sound _ s r hlit
    have hlen : p.length = 8 := by
      have hl := congrArg List.length hp
      simpa using hl
    rw [hs, ← hlen, List.take_left, hp]

theorem distirctAt_of_match (cs s1 s2 cap : List Char)
    (hsplit : cs = s1 ++ s2) (h : matchDistirct s2 = some cap) :
    DistirctAt cs s1.length := by
  unfold DistirctAt
  rw [hsplit, List.drop_left]
  exact matchDistirct_lit s2 cap h

theorem not_distirctAt_of_ge (cs : List Char) (i : ℕ) (h : cs.length ≤ i) :
    ¬ DistirctAt cs i := by
  unfold DistirctAt
  rw [List.drop_eq_nil_of_le h]
  simp

theorem distirctAt_all_of_bounded (cs : List Char)
    (h : ∀ i, i < cs.length → ¬ DistirctAt cs i) : ∀ i, ¬ DistirctAt cs i := by
  intro i
  by_cases hi : i < cs.length
  · exact h i hi
  · exact not_distirctAt_of_ge cs i (by omega)

theorem searchM_distirct_none (cs : List Char) (h : ∀ i, ¬ DistirctAt cs i) :
    searchM matchDistirct cs = none := by
  apply searchM_eq_none
  intro s1 s2 hsplit
  cases hm : matchDistirct s2 with
  | none => rfl
  | some cap => exact absurd (distirctAt_of_match cs s1 s2 cap hsplit hm) (h s1.length)

theorem parse_address_lookup_district (addr : String) :
    (parse_address addr).lookup "District" =
      some (optStr (searchM matchDistirct addr.toList)) := rfl

/-- C5 counterexample: the address "District: Bhopal, MP" contains the
correctly spelled text "District:" followed by the value "Bhopal" delimited
by a comma, yet `parse_address` returns the empty string for the District
field, because the source pattern spells the literal as `Distirct`. -/
theorem parse_address_district_typo_counterexample :
    (parse_address "District: Bhopal, MP").lookup "District" = some "" ∧
    "District: Bhopal, MP" = "District:" ++ " Bhopal" ++ "," ++ " MP" ∧
    ("" : String) ≠ "Bhopal" := by
  refine ⟨by decide, rfl, by decide⟩

/-- C5 corrected: the district pattern matches the misspelled literal
`Distirct` (as written in the source), case-insensitively: when the address
decomposes as `pre ++ p ++ ":" ++ value ++ delimiter ++ suffix` with `p`
spelling `Distirct` in any letter case, no earlier occurrence of that
literal, the value non-empty, not starting with whitespace and free of
comma/period, and the delimiter a comma or period, the District field is
exactly that value; and for every address with no case-insensitive
occurrence of `Distirct` at all, the District field is the empty string. -/
theorem parse_address_distirct_field (pre p vt suf : List Char) (c delim : Char)
    (cs2 : List Char)
    (hp : p.map Char.toLower = ['d', 'i', 's', 't', 'i', 'r', 'c', 't'])
    (hc : isSpace c = false)
    (hvd : (c :: vt).all notDelim = true)
    (hdel : delim = ',' ∨ delim = '.')
    (hpre : ∀ i, i < pre.length →
      ¬ DistirctAt (pre ++ (p ++ ':' :: c :: (vt ++ delim :: suf))) i)
    (hnone : ∀ i, ¬ DistirctAt cs2 i) :
    (parse_address (String.mk (pre ++ (p ++ ':' :: c :: (vt ++ delim :: suf))))).lookup
        "District" = some (String.mk (c :: vt)) ∧
    (parse_address (String.mk cs2)).lookup "District" = some "" := by
  have hdelf : notDelim delim = false := by
    rcases hdel with rfl | rfl <;> rfl
  constructor
  · have hm : matchDistirct (p ++ ':' :: c :: (vt ++ delim :: suf)) = some (c :: vt) :=
      matchDistirct_at p c vt delim suf hp hc hvd hdelf
    have hskip : searchM matchDistirct (pre ++ (p ++ ':' :: c :: (vt ++ delim :: suf))) =
        searchM matchDistirct (p ++ ':' :: c :: (vt ++ delim :: suf)) := by
      apply searchM_skip
      intro s1 s2 hsplit hne
      cases hm2 : matchDistirct (s2 ++ (p ++ ':' :: c :: (vt ++ delim :: suf))) with
      | none => rfl
      | some cap =>
        exfalso
        have hlt : s1.length < pre.length := by
          have := congrArg List.length hsplit
          simp only [List.length_append] at this
          cases s2 with
          | nil => exact absurd rfl hne
          | cons z zs =>
            simp only [List.length_cons] at this
            omega
        refine hpre s1.length hlt ?_
        exact distirctAt_of_match _ s1 (s2 ++ (p ++ ':' :: c :: (vt ++ delim :: suf)))
          cap (by rw [hsplit]; simp) hm2
    rw [parse_address_lookup_district]
    rw [show (String.mk (pre ++ (p ++ ':' :: c :: (vt ++ delim :: suf)))).toList =
      pre ++ (p ++ ':' :: c :: (vt ++ delim :: suf)) from rfl]
    rw [hskip, searchM_of_some matchDistirct _ _ hm]
    rfl
  · rw [parse_address_lookup_district]
    rw [show (String.mk cs2).toList = cs2 from rfl]
    rw [searchM_distirct_none cs2 hnone]
    rfl

/-- C5 witness: `"Distirct:Bhopal, MP"` yields District `"Bhopal"`, and an
address without the misspelled literal (`"Tehsil: Huzur"`) yields `""`. -/
theorem parse_address_distirct_field_witness :
    (parse_address (String.mk (([] : List Char) ++
        (['D', 'i', 's', 't', 'i', 'r', 'c', 't'] ++
          ':' :: 'B' :: (['h', 'o', 'p', 'a', 'l'] ++ ',' :: [' ', 'M', 'P']))))).lookup
        "District" = some (String.mk ('B' :: ['h', 'o', 'p', 'a', 'l'])) ∧
    (parse_address (String.mk (String.toList "Tehsil: Huzur"))).lookup "District" =
      some "" :=
  parse_address_distirct_field [] ['D', 'i', 's', 't', 'i', 'r', 'c', 't']
    ['h', 'o', 'p', 'a', 'l'] [' ', 'M', 'P'] 'B' ',' (String.toList "Tehsil: Huzur")
    (by decide) rfl (by decide) (Or.inl rfl)
    (fun i hi => absurd hi (Nat.not_lt_zero i))
    (distirctAt_all_of_bounded _ (by decide))

end Scraper
